/-
  Verification of the bokstavsresan progression model, game-mode state
  machine and progress persistence against `src/bokstavsresan/main.py`.

  Letters are modelled as `Char` (every letter of the Swedish alphabet used
  by the program is a single character), words as `String`, and the numeric
  progress fields as `Nat` (the data model declares them non-negative).
  Randomness (`random.choice`, `random.sample`, `random.shuffle`) is
  modelled by passing the drawn values / indices / permutation explicitly.
-/
import Mathlib

namespace Bokstavsresan

/-- The in-memory progress record `ProgressStore.data`
(`main.py`, `ProgressStore.__init__`). -/
structure ProgressData where
  letters_mastered : List Char
  streak : Nat
  total_correct : Nat
  total_attempts : Nat
  stars : Nat
  level : Nat
  deriving Repr, DecidableEq

/-- Default contents of `ProgressStore.data` before `_load` overlays the
stored document (`main.py` line 132). -/
def defaultProgress : ProgressData :=
  { letters_mastered := []
    streak := 0
    total_correct := 0
    total_attempts := 0
    stars := 0
    level := 1 }

/-- Model of `ProgressStore.record_correct` (`main.py` lines 149-158), the pure data
mutation: the trailing `self.save()` call is modelled separately by
`record_correct_op`. -/
def record_correct (letter : Char) (d : ProgressData) : ProgressData :=
  let d1 : ProgressData :=
    { d with
      total_correct := d.total_correct + 1
      total_attempts := d.total_attempts + 1
      streak := d.streak + 1
      stars := d.stars + 1 }
  let d2 : ProgressData :=
    if letter ∈ d1.letters_mastered then d1
    else { d1 with letters_mastered := d1.letters_mastered ++ [letter] }
  if d2.streak % 5 = 0 then { d2 with stars := d2.stars + 2 } else d2

/-- Model of `ProgressStore.record_wrong` (`main.py` lines 160-163), the pure data
mutation: the trailing `self.save()` call is modelled separately by
`record_wrong_op`. -/
def record_wrong (d : ProgressData) : ProgressData :=
  { d with total_attempts := d.total_attempts + 1, streak := 0 }

/-- Whether the durable write attempted by `ProgressStore.save`
(`main.py` lines 144-147) succeeds.  `save` itself has no `try`/`except`:
`mkdir` and `open(..., "w")` raise on an unwritable location. -/
inductive WriteOutcome where
  | success
  | failure
  deriving Repr, DecidableEq

/-- Model of `ProgressStore.save` (`main.py` lines 144-147): performs the write and
returns normally iff the filesystem write succeeds; otherwise the
exception propagates (there is no exception handler in `save`). -/
def save (w : WriteOutcome) : Except Unit Unit :=
  match w with
  | .success => Except.ok ()
  | .failure => Except.error ()

/-- Result of calling a mutating `ProgressStore` method: the object state
after the call (the mutation happens before `self.save()`), and whether the
method returned normally (`Except.ok`) or an exception escaped from the
`self.save()` call (`Except.error`). -/
structure MutResult where
  data : ProgressData
  returned : Except Unit Unit

/-- Model of `ProgressStore.record_correct` including its final `self.save()` call
(`main.py` lines 149-158). -/
def record_correct_op (letter : Char) (d : ProgressData) (w : WriteOutcome) :
    MutResult :=
  { data := record_correct letter d, returned := save w }

/-- Model of `ProgressStore.record_wrong` including its final `self.save()` call
(`main.py` lines 160-163). -/
def record_wrong_op (d : ProgressData) (w : WriteOutcome) : MutResult :=
  { data := record_wrong d, returned := save w }

/-- A call to one of the two mutating `ProgressStore` operations. -/
inductive Op where
  | correct (letter : Char)
  | wrong
  deriving Repr, DecidableEq

/-- Apply one mutating operation to the in-memory record. -/
def applyOp (d : ProgressData) : Op → ProgressData
  | .correct letter => record_correct letter d
  | .wrong => record_wrong d

/-- Run a sequence of mutating operations starting from the default record. -/
def runOps (ops : List Op) : ProgressData :=
  ops.foldl applyOp defaultProgress

/-- Model of `LETTER_PHONETICS` (`main.py` lines 27-34): the Swedish alphabet with
the long-form phonetic name of each letter, in source order. -/
def LETTER_PHONETICS : List (Char × String) :=
  [('A', "ah"), ('B', "beh"), ('C', "seh"), ('D', "deh"), ('E', "eh"),
   ('F', "eff"), ('G', "geh"), ('H', "hå"), ('I', "ih"), ('J', "jih"),
   ('K', "kå"), ('L', "ell"), ('M', "emm"), ('N', "enn"), ('O', "oh"),
   ('P', "peh"), ('Q', "kuh"), ('R', "err"), ('S', "ess"), ('T', "teh"),
   ('U', "uh"), ('V', "veh"), ('W', "dubbelveh"), ('X', "eks"), ('Y', "yh"),
   ('Z', "seta"), ('Å', "å"), ('Ä', "äh"), ('Ö', "öh")]

/-- Model of `list(LETTER_PHONETICS.keys())` as used by `_start_find_round`
(`main.py` line 571). -/
def lettersList : List Char :=
  LETTER_PHONETICS.map Prod.fst

/-- Model of `WORDS_EASY` (`main.py` lines 48-53); hints are the untranslated
message ids. -/
def WORDS_EASY : List (String × String) :=
  [("SOL", "sun"), ("KAT", "cat"), ("HUS", "house"),
   ("BIL", "car"), ("MUS", "mouse"), ("HÅR", "hair"),
   ("BÅT", "boat"), ("ÖGA", "eye"), ("ARM", "arm"),
   ("BEN", "leg"), ("LÅS", "lock"), ("NÄS", "nose")]

/-- Model of `WORDS_MEDIUM` (`main.py` lines 55-60). -/
def WORDS_MEDIUM : List (String × String) :=
  [("BOLL", "ball"), ("LAMM", "lamb"), ("FISK", "fish"),
   ("GRIS", "pig"), ("HUND", "dog"), ("KATT", "cat"),
   ("STOL", "chair"), ("DÖRR", "door"), ("BLAD", "leaf"),
   ("SNÄL", "kind"), ("GLAD", "happy"), ("STOR", "big")]

/-- Model of `WORDS_HARD` (`main.py` lines 62-66). -/
def WORDS_HARD : List (String × String) :=
  [("ÄPPLE", "apple"), ("SKOLA", "school"), ("BJÖRN", "bear"),
   ("BLOMMA", "flower"), ("STJÄRNA", "star"), ("TRÄD", "tree"),
   ("SJUNGA", "sing"), ("HIMMEL", "sky"), ("VATTEN", "water")]

/-- The distractor pool of `_start_find_round`
(`main.py` line 574): `[l for l in letters if l != self.target_letter]`. -/
def distractorsOf (target : Char) : List Char :=
  lettersList.filter (fun l => l ≠ target)

/-- The sample size `min(5, len(distractors))` requested from
`random.sample` in `_start_find_round` (`main.py` line 575). -/
def find_sample_size (target : Char) : Nat :=
  min 5 (distractorsOf target).length

/-- The candidate list built by `_start_find_round` before `random.shuffle`
(`main.py` lines 573-575): the target followed by the drawn distractors. -/
def find_choices (target : Char) (sample : List Char) : List Char :=
  target :: sample

/-- The eligible word pool chosen by `_start_soundout_round` from the
current level (`main.py` lines 627-633). -/
def wordPool (level : Nat) : List (String × String) :=
  if level ≤ 1 then WORDS_EASY
  else if level ≤ 2 then WORDS_EASY ++ WORDS_MEDIUM
  else WORDS_EASY ++ WORDS_MEDIUM ++ WORDS_HARD

/-- Model of `random.choice(words)` in `_start_soundout_round` (`main.py` line 635),
with the random draw modelled as an arbitrary index reduced modulo the pool
size (the pool is never empty, and every element is reachable). -/
def chooseWord (level : Nat) (choice : Nat) : String × String :=
  (wordPool level).getD (choice % (wordPool level).length) ("", "")

/-- The game-relevant mutable state of `App` (`main.py` lines 210-214 and
the `find_next_btn` visibility flag of `main.py` lines 477-481). -/
structure AppState where
  progress : ProgressData
  target_letter : Option Char
  find_next_visible : Bool
  current_word : Option String
  current_word_idx : Nat
  deriving Repr, DecidableEq

/-- The `App` state after `__init__` with a default progress record
(`main.py` lines 205-214; `find_next_btn` starts hidden, line 480). -/
def initState : AppState :=
  { progress := defaultProgress
    target_letter := none
    find_next_visible := false
    current_word := none
    current_word_idx := 0 }

/-- One discrete user-input event handled by `App`, with each random draw
carried as an explicit payload. -/
inductive Event where
  | exploreLetter (letter : Char)
  | startFind (target : Char)
  | findLetter (letter : Char)
  | startSoundOut (choice : Nat)
  | nextSound
  deriving Repr, DecidableEq

/-- Model of `App._on_explore_letter` (`main.py` lines 547-563): records the tapped
letter as correct unconditionally; no level-up check. -/
def on_explore_letter (letter : Char) (s : AppState) : AppState :=
  { s with progress := record_correct letter s.progress }

/-- Model of `App._start_find_round` (`main.py` lines 565-599) restricted to game
state: stores the drawn target and hides the next-round button. -/
def start_find_round (target : Char) (s : AppState) : AppState :=
  { s with target_letter := some target, find_next_visible := false }

/-- Model of `App._on_find_letter` (`main.py` lines 605-622): a tap on the target
records a correct answer and shows the next-round button; any other tap
records a wrong answer and leaves the button as it is.  No level-up
check in either branch. -/
def on_find_letter (letter : Char) (s : AppState) : AppState :=
  if s.target_letter = some letter then
    { s with
      progress := record_correct letter s.progress
      find_next_visible := true }
  else
    { s with progress := record_wrong s.progress }

/-- Model of `App._start_soundout_round` (`main.py` lines 624-642): picks the pool
from the current level, draws one word and resets the letter index. -/
def start_soundout_round (choice : Nat) (s : AppState) : AppState :=
  { s with
    current_word := some (chooseWord s.progress.level choice).1
    current_word_idx := 0 }

/-- The completion branch of `App._on_next_sound` (`main.py` lines
683-695): when the new index `idx` has reached the end of the word and
`total_correct` is a positive multiple of 20, the level is incremented and
capped at 3; in every other case the record is untouched. -/
def levelCheck (w : String) (idx : Nat) (p : ProgressData) : ProgressData :=
  if w.length ≤ idx then
    if 0 < p.total_correct ∧ p.total_correct % 20 = 0 then
      { p with level := min (p.level + 1) 3 }
    else p
  else p

/-- Model of `App._on_next_sound` (`main.py` lines 672-711): a no-op without a word
(or with an empty word, Python truthiness) and past the end of the word;
otherwise records the current letter as correct and advances, and — only
when the word is thereby completed — runs the level-up check
(`main.py` lines 690-695, modelled by `levelCheck`). -/
def on_next_sound (s : AppState) : AppState :=
  match s.current_word with
  | none => s
  | some w =>
    if w.length = 0 then s
    else if s.current_word_idx < w.length then
      { s with
        progress :=
          levelCheck w (s.current_word_idx + 1)
            (record_correct (w.toList.getD s.current_word_idx 'A') s.progress)
        current_word_idx := s.current_word_idx + 1 }
    else s

/-- Dispatch of one input event to its `App` handler. -/
def step (s : AppState) : Event → AppState
  | .exploreLetter letter => on_explore_letter letter s
  | .startFind target => start_find_round target s
  | .findLetter letter => on_find_letter letter s
  | .startSoundOut choice => start_soundout_round choice s
  | .nextSound => on_next_sound s

/-- Run a sequence of input events from the initial application state. -/
def runApp (events : List Event) : AppState :=
  events.foldl step initState

/-- The exact condition under which the level-up branch of
`_on_next_sound` fires (`main.py` lines 683-695): the advance completes
the word and the incremented `total_correct` is a positive multiple
of 20. -/
def levelUpFires (s : AppState) : Prop :=
  ∃ w, s.current_word = some w ∧ s.current_word_idx + 1 = w.length ∧
    (s.progress.total_correct + 1) % 20 = 0

/-- A parsed progress document: each of the six known keys may be present
or absent (`main.py` line 140, `self.data.update(json.load(f))`; unknown
extra keys are ignored by the model, matching the claims). -/
structure StoredDoc where
  letters_mastered : Option (List Char)
  streak : Option Nat
  total_correct : Option Nat
  total_attempts : Option Nat
  stars : Option Nat
  level : Option Nat
  deriving Repr, DecidableEq

/-- Outcome of reading `progress.json` in `ProgressStore._load`
(`main.py` lines 136-142): the file may be absent, the read or parse may
raise, or a document is obtained. -/
inductive ReadResult where
  | missing
  | failure
  | parsed (doc : StoredDoc)
  deriving Repr, DecidableEq

/-- Model of `ProgressStore._load` (`main.py` lines 136-142): on a missing file the
defaults are kept untouched; any exception is swallowed leaving the
defaults; otherwise `dict.update` overlays the stored keys onto the
defaults, missing keys keeping their default values. -/
def load (r : ReadResult) : ProgressData :=
  match r with
  | .missing => defaultProgress
  | .failure => defaultProgress
  | .parsed doc =>
    { letters_mastered := doc.letters_mastered.getD defaultProgress.letters_mastered
      streak := doc.streak.getD defaultProgress.streak
      total_correct := doc.total_correct.getD defaultProgress.total_correct
      total_attempts := doc.total_attempts.getD defaultProgress.total_attempts
      stars := doc.stars.getD defaultProgress.stars
      level := doc.level.getD defaultProgress.level }

/-! ### Field lemmas for the two mutating operations -/

theorem record_correct_total_correct (letter : Char) (d : ProgressData) :
    (record_correct letter d).total_correct = d.total_correct + 1 := by
  simp only [record_correct]
  split <;> split <;> rfl

theorem record_correct_total_attempts (letter : Char) (d : ProgressData) :
    (record_correct letter d).total_attempts = d.total_attempts + 1 := by
  simp only [record_correct]
  split <;> split <;> rfl

theorem record_correct_streak (letter : Char) (d : ProgressData) :
    (record_correct letter d).streak = d.streak + 1 := by
  simp only [record_correct]
  split <;> split <;> rfl

theorem record_correct_level (letter : Char) (d : ProgressData) :
    (record_correct letter d).level = d.level := by
  simp only [record_correct]
  split <;> split <;> rfl

theorem record_correct_stars (letter : Char) (d : ProgressData) :
    (record_correct letter d).stars =
      d.stars + 1 + (if (d.streak + 1) % 5 = 0 then 2 else 0) := by
  simp only [record_correct]
  split <;> split <;> simp_all

theorem record_correct_letters (letter : Char) (d : ProgressData) :
    (record_correct letter d).letters_mastered =
      if letter ∈ d.letters_mastered then d.letters_mastered
      else d.letters_mastered ++ [letter] := by
  simp only [record_correct]
  split <;> split <;> simp_all

theorem record_wrong_fields (d : ProgressData) :
    (record_wrong d).total_attempts = d.total_attempts + 1 ∧
    (record_wrong d).streak = 0 ∧
    (record_wrong d).total_correct = d.total_correct ∧
    (record_wrong d).stars = d.stars ∧
    (record_wrong d).letters_mastered = d.letters_mastered ∧
    (record_wrong d).level = d.level := by
  exact ⟨rfl, rfl, rfl, rfl, rfl, rfl⟩

/-- Any predicate preserved by every mutating operation holds after any
sequence of operations. -/
theorem foldl_applyOp_preserve {P : ProgressData → Prop}
    (hstep : ∀ d op, P d → P (applyOp d op)) :
    ∀ (ops : List Op) (d : ProgressData), P d → P (ops.foldl applyOp d) := by
  intro ops
  induction ops with
  | nil => intro d h; exact h
  | cons op rest ih => intro d h; exact ih _ (hstep _ _ h)

/-- For sequences of correct answers only, the equality of correct and
attempt counts and the star bound are preserved. -/
theorem foldl_applyOp_correct_only :
    ∀ (ops : List Op), (∀ op ∈ ops, ∃ letter, op = Op.correct letter) →
    ∀ d : ProgressData,
      d.total_correct = d.total_attempts → d.total_correct ≤ d.stars →
      (ops.foldl applyOp d).total_correct = (ops.foldl applyOp d).total_attempts ∧
      (ops.foldl applyOp d).total_correct ≤ (ops.foldl applyOp d).stars := by
  intro ops
  induction ops with
  | nil => intro _ d h1 h2; exact ⟨h1, h2⟩
  | cons op rest ih =>
    intro hall d h1 h2
    obtain ⟨letter, rfl⟩ := hall op (List.mem_cons_self op rest)
    have hrest : ∀ op ∈ rest, ∃ letter, op = Op.correct letter :=
      fun op hop => hall op (List.mem_cons_of_mem _ hop)
    refine ih hrest _ ?_ ?_
    · simp only [applyOp, record_correct_total_correct,
        record_correct_total_attempts, h1]
    · simp only [applyOp, record_correct_total_correct, record_correct_stars]
      split <;> omega

/-- C3: `record_correct(letter)` increments `totalCorrect`, `totalAttempts`,
`streak` and `stars` each by 1, appends `letter` to `masteredLetters` iff it
was absent, and adds 2 bonus stars iff the incremented streak is a
(necessarily positive) multiple of 5; five consecutive
`record_correct("A")` calls from the default record yield 7 stars, a streak
of 5 and mastered letters `{"A"}`. -/
theorem C3_record_correct_effects :
    (∀ (d : ProgressData) (letter : Char),
      (record_correct letter d).total_correct = d.total_correct + 1 ∧
      (record_correct letter d).total_attempts = d.total_attempts + 1 ∧
      (record_correct letter d).streak = d.streak + 1 ∧
      (record_correct letter d).stars =
        d.stars + 1 + (if (d.streak + 1) % 5 = 0 then 2 else 0) ∧
      0 < (record_correct letter d).streak ∧
      (record_correct letter d).letters_mastered =
        (if letter ∈ d.letters_mastered then d.letters_mastered
         else d.letters_mastered ++ [letter]) ∧
      letter ∈ (record_correct letter d).letters_mastered) ∧
    (runOps (List.replicate 5 (Op.correct 'A'))).stars = 7 ∧
    (runOps (List.replicate 5 (Op.correct 'A'))).streak = 5 ∧
    (runOps (List.replicate 5 (Op.correct 'A'))).letters_mastered = ['A'] := by
  refine ⟨?_, by decide, by decide, by decide⟩
  intro d letter
  refine ⟨record_correct_total_correct letter d,
    record_correct_total_attempts letter d,
    record_correct_streak letter d,
    record_correct_stars letter d,
    ?_, record_correct_letters letter d, ?_⟩
  · rw [record_correct_streak]; exact Nat.succ_pos _
  · rw [record_correct_letters]
    split
    · assumption
    · exact List.mem_append_right _ (List.mem_singleton_self _)

/-- C4: `record_wrong()` increments `totalAttempts` by exactly 1, resets
`streak` to 0, and leaves `totalCorrect`, `stars`, `masteredLetters` and
`level` unchanged. -/
theorem C4_record_wrong_effects :
    ∀ d : ProgressData,
      (record_wrong d).total_attempts = d.total_attempts + 1 ∧
      (record_wrong d).streak = 0 ∧
      (record_wrong d).total_correct = d.total_correct ∧
      (record_wrong d).stars = d.stars ∧
      (record_wrong d).letters_mastered = d.letters_mastered ∧
      (record_wrong d).level = d.level :=
  fun d => record_wrong_fields d

/-- C8: `_load` never raises — a missing file or any read/parse failure
leaves the default record (empty mastered letters, streak 0, totals 0,
stars 0, level 1); a parsed document overlays the defaults field by field,
absent fields keeping their defaults. -/
theorem C8_load_defaults_and_overlay :
    load ReadResult.missing = defaultProgress ∧
    load ReadResult.failure = defaultProgress ∧
    defaultProgress.letters_mastered = [] ∧ defaultProgress.streak = 0 ∧
    defaultProgress.total_correct = 0 ∧ defaultProgress.total_attempts = 0 ∧
    defaultProgress.stars = 0 ∧ defaultProgress.level = 1 ∧
    ∀ doc : StoredDoc,
      (load (ReadResult.parsed doc)).letters_mastered =
        doc.letters_mastered.getD [] ∧
      (load (ReadResult.parsed doc)).streak = doc.streak.getD 0 ∧
      (load (ReadResult.parsed doc)).total_correct = doc.total_correct.getD 0 ∧
      (load (ReadResult.parsed doc)).total_attempts =
        doc.total_attempts.getD 0 ∧
      (load (ReadResult.parsed doc)).stars = doc.stars.getD 0 ∧
      (load (ReadResult.parsed doc)).level = doc.level.getD 1 :=
  ⟨rfl, rfl, rfl, rfl, rfl, rfl, rfl, rfl,
   fun _ => ⟨rfl, rfl, rfl, rfl, rfl, rfl⟩⟩

/-- C9: from the default record, after any sequence of mutating calls
`totalCorrect ≤ totalAttempts` holds; `stars` never decreases across any
single call; and for sequences of `record_correct` calls only,
`totalCorrect = totalAttempts` and `stars ≥ totalCorrect`. -/
theorem C9_progress_invariants :
    (∀ ops : List Op,
      (runOps ops).total_correct ≤ (runOps ops).total_attempts) ∧
    (∀ (d : ProgressData) (op : Op), d.stars ≤ (applyOp d op).stars) ∧
    (∀ ops : List Op, (∀ op ∈ ops, ∃ letter, op = Op.correct letter) →
      (runOps ops).total_correct = (runOps ops).total_attempts ∧
      (runOps ops).total_correct ≤ (runOps ops).stars) := by
  refine ⟨?_, ?_, ?_⟩
  · intro ops
    refine foldl_applyOp_preserve
      (P := fun d => d.total_correct ≤ d.total_attempts) ?_ ops
      defaultProgress (Nat.le_refl 0)
    intro d op h
    cases op with
    | correct letter =>
      simp only [applyOp, record_correct_total_correct,
        record_correct_total_attempts]
      omega
    | wrong =>
      simp only [applyOp, record_wrong]
      omega
  · intro d op
    cases op with
    | correct letter =>
      simp only [applyOp, record_correct_stars]
      split <;> omega
    | wrong => exact Nat.le_refl _
  · intro ops hall
    exact foldl_applyOp_correct_only ops hall defaultProgress rfl (Nat.le_refl 0)

/-- Witness for `C9_progress_invariants`: the correct-only part at the
concrete sequence of two correct answers. -/
theorem C9_progress_invariants_witness :
    (runOps [Op.correct 'A', Op.correct 'B']).total_correct =
      (runOps [Op.correct 'A', Op.correct 'B']).total_attempts ∧
    (runOps [Op.correct 'A', Op.correct 'B']).total_correct ≤
      (runOps [Op.correct 'A', Op.correct 'B']).stars :=
  C9_progress_invariants.2.2 [Op.correct 'A', Op.correct 'B']
    (by
      intro op hop
      rcases List.mem_cons.1 hop with h | h
      · exact ⟨'A', h⟩
      · rcases List.mem_cons.1 h with h2 | h2
        · exact ⟨'B', h2⟩
        · cases h2)

/-- C2 counterexample: when the durable write fails, `record_correct` does
not return normally — the exception from `save` (which has no handler in
`main.py` lines 144-163) escapes to the caller, refuting "any failure of
that write is swallowed ... and never raises to its caller". -/
theorem C2_counterexample_write_failure_raises :
    (record_correct_op 'A' defaultProgress WriteOutcome.failure).returned =
      Except.error () ∧
    (record_wrong_op defaultProgress WriteOutcome.failure).returned =
      Except.error () :=
  ⟨rfl, rfl⟩

/-- C2 amended: every mutating operation applies the in-memory mutation and
then attempts the synchronous write; it returns normally iff the write
succeeds, and a write failure propagates as an exception (the in-memory
mutation still applied). -/
theorem C2_amended_mutating_ops_write :
    ∀ (letter : Char) (d : ProgressData) (w : WriteOutcome),
      (record_correct_op letter d w).data = record_correct letter d ∧
      (record_wrong_op d w).data = record_wrong d ∧
      ((record_correct_op letter d w).returned = Except.ok () ↔
        w = WriteOutcome.success) ∧
      ((record_wrong_op d w).returned = Except.ok () ↔
        w = WriteOutcome.success) ∧
      ((record_correct_op letter d w).returned = Except.error () ↔
        w = WriteOutcome.failure) := by
  intro letter d w
  cases w <;> simp [record_correct_op, record_wrong_op, save]

/-! ### Level dynamics (C1) -/

/-- The function `levelCheck` either leaves the level unchanged, or — exactly when the
word is complete and `total_correct` is a positive multiple of 20 — sets it
to `min (level + 1) 3`. -/
theorem levelCheck_cases (w : String) (idx : Nat) (p : ProgressData) :
    levelCheck w idx p = p ∨
    (w.length ≤ idx ∧ 0 < p.total_correct ∧ p.total_correct % 20 = 0 ∧
      levelCheck w idx p = { p with level := min (p.level + 1) 3 }) := by
  unfold levelCheck
  split
  · split
    · rename_i h1 h2
      exact Or.inr ⟨h1, h2.1, h2.2, rfl⟩
    · exact Or.inl rfl
  · exact Or.inl rfl

/-- Any step either preserves the level or is a word-completing Sound-Out
advance whose incremented `total_correct` is a positive multiple of 20, in
which case the new level is `min (level + 1) 3`. -/
theorem step_level_eq_or_fires (s : AppState) (e : Event) :
    (step s e).progress.level = s.progress.level ∨
    (e = Event.nextSound ∧ levelUpFires s ∧
      (step s e).progress.level = min (s.progress.level + 1) 3) := by
  cases e with
  | exploreLetter letter =>
    left
    exact record_correct_level letter s.progress
  | startFind target => left; rfl
  | findLetter letter =>
    left
    simp only [step, on_find_letter]
    split
    · exact record_correct_level letter s.progress
    · rfl
  | startSoundOut choice => left; rfl
  | nextSound =>
    rcases hcw : s.current_word with _ | w
    · left; simp only [step, on_next_sound, hcw]
    · simp only [step, on_next_sound, hcw]
      by_cases hlen : w.length = 0
      · rw [if_pos hlen]
        left; rfl
      · rw [if_neg hlen]
        by_cases hidx : s.current_word_idx < w.length
        · rw [if_pos hidx]
          rcases levelCheck_cases w (s.current_word_idx + 1)
              (record_correct (w.toList.getD s.current_word_idx 'A')
                s.progress) with h | ⟨hle, hpos, hmod, h⟩
          · left
            simp only [h]
            exact record_correct_level _ s.progress
          · right
            have htc := record_correct_total_correct
              (w.toList.getD s.current_word_idx 'A') s.progress
            have hlv := record_correct_level
              (w.toList.getD s.current_word_idx 'A') s.progress
            refine ⟨by trivial, ⟨w, hcw, by omega, by omega⟩, ?_⟩
            simp only [h, hlv]
        · rw [if_neg hidx]
          left; rfl

/-- When the level-up condition holds, the Sound-Out advance sets the level
to `min (level + 1) 3`. -/
theorem step_level_fires (s : AppState) (hfire : levelUpFires s) :
    (step s Event.nextSound).progress.level = min (s.progress.level + 1) 3 := by
  obtain ⟨w, hcw, hidx, hmod⟩ := hfire
  simp only [step, on_next_sound, hcw]
  rw [if_neg (by omega : ¬w.length = 0), if_pos (by omega)]
  have htc := record_correct_total_correct
    (w.toList.getD s.current_word_idx 'A') s.progress
  have hlv := record_correct_level
    (w.toList.getD s.current_word_idx 'A') s.progress
  unfold levelCheck
  rw [if_pos (by omega), if_pos (by omega), hlv]

/-- Any predicate preserved by every event holds along every event trace. -/
theorem foldl_step_preserve {P : AppState → Prop}
    (hstep : ∀ s e, P s → P (step s e)) :
    ∀ (events : List Event) (s : AppState), P s → P (events.foldl step s) := by
  intro events
  induction events with
  | nil => intro s h; exact h
  | cons e rest ih => intro s h; exact ih _ (hstep _ _ h)

/-- Within the band `1 ≤ level ≤ 3`, every step keeps the level in the band
and never decreases it. -/
theorem step_level_bounds (s : AppState) (e : Event)
    (h1 : 1 ≤ s.progress.level) (h3 : s.progress.level ≤ 3) :
    s.progress.level ≤ (step s e).progress.level ∧
    1 ≤ (step s e).progress.level ∧ (step s e).progress.level ≤ 3 := by
  rcases step_level_eq_or_fires s e with h | ⟨-, -, h⟩ <;> omega

/-- Along every trace from the initial state the level stays in `[1, 3]`. -/
theorem runApp_level_bounds (events : List Event) :
    1 ≤ (runApp events).progress.level ∧ (runApp events).progress.level ≤ 3 := by
  refine foldl_step_preserve
    (P := fun s => 1 ≤ s.progress.level ∧ s.progress.level ≤ 3) ?_ events
    initState ⟨Nat.le_refl 1, by decide⟩
  intro s e h
  exact ⟨(step_level_bounds s e h.1 h.2).2.1, (step_level_bounds s e h.1 h.2).2.2⟩

set_option maxRecDepth 8192 in
/-- C1 counterexample: a reachable crossing of `totalCorrect` onto 20
produced in Find mode does not increase the level — the level-up check only
runs on word completion in Sound-Out mode, so "increases exactly once at
each crossing ... regardless of which game mode" fails. -/
theorem C1_counterexample_find_crossing :
    (runApp (Event.startFind 'A' ::
      List.replicate 19 (Event.findLetter 'A'))).progress.total_correct = 19 ∧
    (runApp (Event.startFind 'A' ::
      List.replicate 19 (Event.findLetter 'A'))).progress.level = 1 ∧
    (runApp (Event.startFind 'A' ::
      List.replicate 20 (Event.findLetter 'A'))).progress.total_correct = 20 ∧
    (runApp (Event.startFind 'A' ::
      List.replicate 20 (Event.findLetter 'A'))).progress.level = 1 := by
  refine ⟨?_, ?_, ?_, ?_⟩ <;> rfl

/-- C1 amended: along every reachable trace the level stays in `[1, 3]` and
never decreases at a step; the level changes only at a Sound-Out advance
that completes the word with the incremented `totalCorrect` a positive
multiple of 20, where it becomes `min (level + 1) 3`; and such an advance
always sets the level to `min (level + 1) 3` (a no-op at level 3).
Crossings of 20-multiples produced in Explore or Find mode, or mid-word in
Sound-Out mode, leave the level unchanged. -/
theorem C1_amended_level_dynamics :
    (∀ events : List Event,
      1 ≤ (runApp events).progress.level ∧
        (runApp events).progress.level ≤ 3) ∧
    (∀ (events : List Event) (e : Event),
      (runApp events).progress.level ≤
        (step (runApp events) e).progress.level) ∧
    (∀ (s : AppState) (e : Event),
      (step s e).progress.level ≠ s.progress.level →
      e = Event.nextSound ∧ levelUpFires s ∧
      (step s e).progress.level = min (s.progress.level + 1) 3) ∧
    (∀ s : AppState, levelUpFires s →
      (step s Event.nextSound).progress.level =
        min (s.progress.level + 1) 3) := by
  refine ⟨runApp_level_bounds, ?_, ?_, step_level_fires⟩
  · intro events e
    have hb := runApp_level_bounds events
    exact (step_level_bounds (runApp events) e hb.1 hb.2).1
  · intro s e hne
    rcases step_level_eq_or_fires s e with h | h
    · exact absurd h hne
    · exact h

/-- A progress record with 19 correct answers, one short of the first
level-up milestone. -/
def levelUpDemoProgress : ProgressData :=
  { letters_mastered := ['A']
    streak := 19
    total_correct := 19
    total_attempts := 19
    stars := 19
    level := 1 }

/-- The application state used to witness the level-up branch: a Sound-Out
round on the word `"AB"` with one letter left and 19 correct answers
recorded. -/
def levelUpDemoState : AppState :=
  { progress := levelUpDemoProgress
    target_letter := none
    find_next_visible := false
    current_word := some "AB"
    current_word_idx := 1 }

/-- Witness for `C1_amended_level_dynamics`: the firing branch at a
concrete word-completing advance whose new `totalCorrect` is 20. -/
theorem C1_amended_level_dynamics_witness :
    (step levelUpDemoState Event.nextSound).progress.level = 2 :=
  (C1_amended_level_dynamics.2.2.2 levelUpDemoState
    ⟨"AB", rfl, by decide, by decide⟩).trans (by decide)

/-! ### Sound-Out rounds (C6, C7) -/

/-- The word pool of every level is non-empty. -/
theorem wordPool_length_pos (level : Nat) : 0 < (wordPool level).length := by
  unfold wordPool
  split
  · decide
  · split <;> decide

/-- The drawn word/hint pair always belongs to the eligible pool. -/
theorem chooseWord_mem (level choice : Nat) :
    chooseWord level choice ∈ wordPool level := by
  unfold chooseWord
  have h : choice % (wordPool level).length < (wordPool level).length :=
    Nat.mod_lt _ (wordPool_length_pos level)
  rw [List.getD_eq_getElem?_getD, List.getElem?_eq_getElem h]
  exact List.getElem_mem h

/-- C6: the Sound-Out pool is picked from the level — level 1 easy only,
level 2 easy+medium, level 3 or higher all three tiers — one `(word, hint)`
pair is chosen from that pool, and the letter index starts at 0. -/
theorem C6_soundout_round_start :
    wordPool 1 = WORDS_EASY ∧
    wordPool 2 = WORDS_EASY ++ WORDS_MEDIUM ∧
    (∀ level : Nat, 3 ≤ level →
      wordPool level = WORDS_EASY ++ WORDS_MEDIUM ++ WORDS_HARD) ∧
    (∀ level choice : Nat, chooseWord level choice ∈ wordPool level) ∧
    (∀ (s : AppState) (choice : Nat),
      (step s (Event.startSoundOut choice)).current_word =
        some (chooseWord s.progress.level choice).1 ∧
      (step s (Event.startSoundOut choice)).current_word_idx = 0) := by
  refine ⟨rfl, rfl, ?_, chooseWord_mem, fun s choice => ⟨rfl, rfl⟩⟩
  intro level h
  unfold wordPool
  rw [if_neg (by omega), if_neg (by omega)]

/-- Witness for `C6_soundout_round_start`: at level 3 the pool is the full
three-tier list. -/
theorem C6_soundout_round_start_witness :
    wordPool 3 = WORDS_EASY ++ WORDS_MEDIUM ++ WORDS_HARD :=
  C6_soundout_round_start.2.2.1 3 (by decide)

/-- A Sound-Out advance never changes the current word. -/
theorem step_nextSound_word (s : AppState) :
    (step s Event.nextSound).current_word = s.current_word := by
  rcases hcw : s.current_word with _ | w
  · simp only [step, on_next_sound, hcw]
  · simp only [step, on_next_sound, hcw]
    by_cases hlen : w.length = 0
    · rw [if_pos hlen]; exact hcw
    · rw [if_neg hlen]
      by_cases hidx : s.current_word_idx < w.length
      · rw [if_pos hidx]
      · rw [if_neg hidx]; exact hcw

/-- A Sound-Out advance strictly before the end of the word increments the
letter index. -/
theorem step_nextSound_advance_idx (s : AppState) (w : String)
    (hcw : s.current_word = some w) (hidx : s.current_word_idx < w.length) :
    (step s Event.nextSound).current_word_idx = s.current_word_idx + 1 := by
  simp only [step, on_next_sound, hcw]
  rw [if_neg (by omega : ¬w.length = 0), if_pos hidx]

/-- Iterating the Sound-Out advance while letters remain adds exactly one
to the index per call and keeps the word. -/
theorem step_nextSound_iterate (n : Nat) :
    ∀ (s : AppState) (w : String), s.current_word = some w →
      s.current_word_idx + n ≤ w.length →
      ((fun t => step t Event.nextSound)^[n] s).current_word = some w ∧
      ((fun t => step t Event.nextSound)^[n] s).current_word_idx =
        s.current_word_idx + n := by
  induction n with
  | zero => intro s w hcw _; exact ⟨hcw, rfl⟩
  | succ n ih =>
    intro s w hcw hle
    rw [Function.iterate_succ_apply]
    have hidx : s.current_word_idx < w.length := by omega
    have hw : (step s Event.nextSound).current_word = some w := by
      rw [step_nextSound_word, hcw]
    have hi : (step s Event.nextSound).current_word_idx =
        s.current_word_idx + 1 := step_nextSound_advance_idx s w hcw hidx
    have := ih (step s Event.nextSound) w hw (by omega)
    exact ⟨this.1, by omega⟩

/-- C7: from index 0, exactly `length(word)` advances reach the complete
state `letterIndex = length(word)`; any advance at the complete state is a
no-op on the whole application state (letter index and progress record
included). -/
theorem C7_soundout_advance :
    (∀ (s : AppState) (w : String), s.current_word = some w →
      s.current_word_idx = 0 →
      ((fun t => step t Event.nextSound)^[w.length] s).current_word_idx =
        w.length ∧
      ((fun t => step t Event.nextSound)^[w.length] s).current_word =
        some w) ∧
    (∀ (s : AppState) (w : String), s.current_word = some w →
      s.current_word_idx = w.length →
      step s Event.nextSound = s) := by
  constructor
  · intro s w hcw h0
    have h := step_nextSound_iterate w.length s w hcw (by omega)
    exact ⟨by omega, h.1⟩
  · intro s w hcw hidx
    simp only [step, on_next_sound, hcw]
    by_cases hlen : w.length = 0
    · rw [if_pos hlen]
    · rw [if_neg hlen, if_neg (by omega)]

/-- The application state used to witness the Sound-Out round claims: a
fresh round on the word `"SOL"`. -/
def soundOutDemoState : AppState :=
  { progress := defaultProgress
    target_letter := none
    find_next_visible := false
    current_word := some "SOL"
    current_word_idx := 0 }

/-- Witness for `C7_soundout_advance`: three advances on `"SOL"` complete
the round, and a fourth is a no-op. -/
theorem C7_soundout_advance_witness :
    ((fun t => step t Event.nextSound)^[("SOL" : String).length]
      soundOutDemoState).current_word_idx = ("SOL" : String).length ∧
    step { soundOutDemoState with current_word_idx := 3 } Event.nextSound =
      { soundOutDemoState with current_word_idx := 3 } :=
  ⟨(C7_soundout_advance.1 soundOutDemoState "SOL" rfl rfl).1,
   C7_soundout_advance.2 { soundOutDemoState with current_word_idx := 3 }
     "SOL" rfl rfl⟩

/-! ### Find rounds (C5, C10) -/

/-- The Swedish alphabet of the program has 29 distinct letters. -/
theorem lettersList_facts : lettersList.length = 29 ∧ lettersList.Nodup := by
  constructor
  · rfl
  · decide

/-- Removing the target from the 29-letter alphabet always leaves exactly
28 distractors. -/
theorem distractorsOf_length : ∀ t ∈ lettersList,
    (distractorsOf t).length = 28 := by decide

/-- Membership in the distractor pool means membership in the alphabet and
being different from the target. -/
theorem mem_distractorsOf {x t : Char} (h : x ∈ distractorsOf t) :
    x ∈ lettersList ∧ x ≠ t := by
  rw [distractorsOf, List.mem_filter] at h
  exact ⟨h.1, by simpa using h.2⟩

/-- Selecting the target letter: the progress gains a correct answer and
the next-round button becomes visible. -/
theorem on_find_letter_correct (s : AppState) (target : Char)
    (h : s.target_letter = some target) :
    step s (Event.findLetter target) =
    { s with progress := record_correct target s.progress,
             find_next_visible := true } := by
  simp only [step, on_find_letter, if_pos h]

/-- Selecting a letter other than the target: the progress gains a wrong
answer and nothing else changes. -/
theorem on_find_letter_wrong (s : AppState) (letter : Char)
    (h : ¬s.target_letter = some letter) :
    step s (Event.findLetter letter) =
    { s with progress := record_wrong s.progress } := by
  simp only [step, on_find_letter, if_neg h]

/-- C5: over the 29-letter alphabet a Find round presents exactly 6
distinct candidates (the target plus the 5 sampled distractors, in any
shuffled order), one of which is the target; a round start hides the
next-round button; selecting the target records a correct answer and shows
it, selecting any other letter records a wrong answer and leaves it
hidden. -/
theorem C5_find_round :
    lettersList.length = 29 ∧ lettersList.Nodup ∧
    (∀ (target : Char) (sample : List Char), target ∈ lettersList →
      sample.Nodup → (∀ x ∈ sample, x ∈ distractorsOf target) →
      sample.length = find_sample_size target →
      ∀ c : List Char, c.Perm (find_choices target sample) →
        c.length = 6 ∧ c.Nodup ∧ target ∈ c) ∧
    (∀ (s : AppState) (target : Char),
      (step s (Event.startFind target)).target_letter = some target ∧
      (step s (Event.startFind target)).find_next_visible = false) ∧
    (∀ (s : AppState) (letter target : Char), s.target_letter = some target →
      (letter = target →
        (step s (Event.findLetter letter)).progress =
          record_correct letter s.progress ∧
        (step s (Event.findLetter letter)).find_next_visible = true) ∧
      (letter ≠ target →
        (step s (Event.findLetter letter)).progress =
          record_wrong s.progress ∧
        (step s (Event.findLetter letter)).find_next_visible =
          s.find_next_visible)) := by
  refine ⟨lettersList_facts.1, lettersList_facts.2, ?_,
    fun s target => ⟨rfl, rfl⟩, ?_⟩
  · intro target sample htarget hnodup hsub hlen c hperm
    have hd : (distractorsOf target).length = 28 :=
      distractorsOf_length target htarget
    have hlen5 : sample.length = 5 := by
      rw [hlen, find_sample_size, hd]
      decide
    have hnotmem : target ∉ sample := fun hmem =>
      (mem_distractorsOf (hsub target hmem)).2 rfl
    have hlen6 : (find_choices target sample).length = 6 := by
      simp [find_choices, hlen5]
    have hnd : (find_choices target sample).Nodup := by
      simp [find_choices, List.nodup_cons, hnotmem, hnodup]
    exact ⟨hperm.length_eq.trans hlen6, hperm.nodup_iff.2 hnd,
      hperm.mem_iff.2 (List.mem_cons_self _ _)⟩
  · intro s letter target htarget
    constructor
    · intro heq
      subst heq
      rw [on_find_letter_correct s letter htarget]
      exact ⟨rfl, rfl⟩
    · intro hne
      have hcond : ¬s.target_letter = some letter := by
        rw [htarget]
        intro h
        exact hne (Option.some.inj h).symm
      rw [on_find_letter_wrong s letter hcond]
      exact ⟨rfl, rfl⟩

/-- Witness for `C5_find_round`: the concrete round with target `'A'`,
sample `B C D E F` and a shuffled ordering. -/
theorem C5_find_round_witness :
    (['C', 'A', 'B', 'F', 'E', 'D'] : List Char).length = 6 ∧
    (['C', 'A', 'B', 'F', 'E', 'D'] : List Char).Nodup ∧
    'A' ∈ (['C', 'A', 'B', 'F', 'E', 'D'] : List Char) :=
  C5_find_round.2.2.1 'A' ['B', 'C', 'D', 'E', 'F'] (by decide) (by decide)
    (by decide) (by decide) ['C', 'A', 'B', 'F', 'E', 'D'] (by decide)

/-- C10: a correct Find selection leaves the round live — the target is
unchanged, a second tap on the target records another correct answer
(awarding further stars), and a tap on a non-target after the success
records a wrong answer and resets the streak to 0. -/
theorem C10_find_round_stays_live :
    ∀ (s : AppState) (target : Char), s.target_letter = some target →
      (step s (Event.findLetter target)).target_letter = some target ∧
      (step (step s (Event.findLetter target))
          (Event.findLetter target)).progress =
        record_correct target (record_correct target s.progress) ∧
      (step (step s (Event.findLetter target))
          (Event.findLetter target)).progress.total_correct =
        s.progress.total_correct + 2 ∧
      (step s (Event.findLetter target)).progress.stars <
        (step (step s (Event.findLetter target))
          (Event.findLetter target)).progress.stars ∧
      (∀ other : Char, other ≠ target →
        (step (step s (Event.findLetter target))
            (Event.findLetter other)).progress =
          record_wrong (step s (Event.findLetter target)).progress ∧
        (step (step s (Event.findLetter target))
            (Event.findLetter other)).progress.streak = 0) := by
  intro s target htarget
  have e1 := on_find_letter_correct s target htarget
  have ht1 : (step s (Event.findLetter target)).target_letter =
      some target := by rw [e1]; exact htarget
  have e2 := on_find_letter_correct (step s (Event.findLetter target))
    target ht1
  refine ⟨ht1, ?_, ?_, ?_, ?_⟩
  · rw [e2, e1]
  · rw [e2, e1]
    simp only [record_correct_total_correct]
  · rw [e2]
    simp only [record_correct_stars]
    split <;> omega
  · intro other hne
    have hcond : ¬(step s (Event.findLetter target)).target_letter =
        some other := by
      rw [ht1]
      intro h
      exact hne (Option.some.inj h).symm
    have e3 := on_find_letter_wrong (step s (Event.findLetter target))
      other hcond
    rw [e3]
    exact ⟨rfl, rfl⟩

/-- The application state used to witness the Find round claims: an active
round with target `'A'`. -/
def findDemoState : AppState :=
  { progress := defaultProgress
    target_letter := some 'A'
    find_next_visible := false
    current_word := none
    current_word_idx := 0 }

/-- Witness for `C10_find_round_stays_live` at the concrete active round
with target `'A'` and the non-target `'B'`. -/
theorem C10_find_round_stays_live_witness :
    (step (step findDemoState (Event.findLetter 'A'))
        (Event.findLetter 'A')).progress.total_correct =
      findDemoState.progress.total_correct + 2 ∧
    (step (step findDemoState (Event.findLetter 'A'))
        (Event.findLetter 'B')).progress.streak = 0 :=
  ⟨(C10_find_round_stays_live findDemoState 'A' rfl).2.2.1,
   ((C10_find_round_stays_live findDemoState 'A' rfl).2.2.2.2 'B'
      (by decide)).2⟩

end Bokstavsresan
